import Mathlib

/-!
Verification of the Entity Composition & Reference Resolution Engine of the
entityEditor repository: a shallow embedding in Lean 4 of the core data model
(`entity_data.py`), the bounds calculator (`geometry_utils.py`), the entity
manager (index, cache, invalidation, dependency resolver in
`entity_manager.py`), the reference-geometry reconciler and the candidate
filter (`bodyparts_panel.py`), and the depth-guarded rendering traversal
(`viewport_renderer.py`).

Python floats are embedded as rationals (ℚ); integer-pixel fields as ℤ.
Python exceptions are embedded as `Except`; functions that catch all
exceptions internally (such as `get_entity_def`) are total.
-/

namespace EntityEditor

/-! ## Data model (src/tools/entity_editor/data/entity_data.py) -/

/-- 2D vector for positions and sizes (`Vec2`). -/
structure Vec2 where
  x : ℚ
  y : ℚ
deriving DecidableEq, Repr

/-- `HitboxShape` enum. -/
inductive HitboxShape where
  | RECTANGLE
  | CIRCLE
deriving DecidableEq, Repr

/-- `Hitbox`: integer-pixel rectangle (or centre+radius for CIRCLE). -/
structure Hitbox where
  name : String := "Hitbox"
  x : ℤ := 0
  y : ℤ := 0
  width : ℤ := 32
  height : ℤ := 32
  hitbox_type : String := "collision"
  shape : HitboxShape := .RECTANGLE
  radius : ℤ := 16
  enabled : Bool := true
deriving DecidableEq, Repr

/-- `BodyPartType` enum: SIMPLE sprite or ENTITY_REF. -/
inductive BodyPartType where
  | SIMPLE
  | ENTITY_REF
deriving DecidableEq, Repr

/-- `BodyPart`: one body part of an entity (sprite or entity reference). -/
structure BodyPart where
  name : String := "BodyPart"
  position : Vec2 := ⟨0, 0⟩
  size : Vec2 := ⟨64, 64⟩
  texture_id : String := "ERROR"
  flip_x : Bool := false
  flip_y : Bool := false
  hitboxes : List Hitbox := []
  pixel_scale : ℤ := 1
  rotation : ℚ := 0
  z_order : ℤ := 0
  pivot : Vec2 := ⟨0, 0⟩
  pivot_offset : Vec2 := ⟨0, 0⟩
  visible : Bool := true
  part_type : BodyPartType := .SIMPLE
  entity_ref : String := ""
deriving DecidableEq, Repr

/-- `Entity`: a complete entity definition. -/
structure Entity where
  name : String := "NewEntity"
  pivot : Vec2 := ⟨0, 0⟩
  body_parts : List BodyPart := []
  entity_hitboxes : List Hitbox := []
  version : String := "1.0"
deriving DecidableEq, Repr

/-! ## Bounds calculator (src/tools/entity_editor/core/geometry_utils.py)

`calculate_entity_bounds` returns a Python tuple whose arity differs between
branches: the early return for an entity with empty `body_parts` and empty
`entity_hitboxes` yields the 2-tuple `(64.0, 64.0)`, every other branch
yields a 4-tuple `(min_x, min_y, width, height)`.  The sum type below keeps
both arities apart. -/

/-- Result of `calculate_entity_bounds`: a 2-tuple or a 4-tuple. -/
inductive BoundsResult where
  | pair (w h : ℚ)
  | quad (min_x min_y w h : ℚ)
deriving DecidableEq, Repr

/-- Python's builtin `min` on two rationals, written as an explicit
conditional so that concrete instances evaluate by `decide`. -/
def pymin (a b : ℚ) : ℚ := if a ≤ b then a else b

/-- Python's builtin `max` on two rationals, written as an explicit
conditional so that concrete instances evaluate by `decide`. -/
def pymax (a b : ℚ) : ℚ := if a ≤ b then b else a

theorem pymin_eq (a b : ℚ) : pymin a b = min a b := (min_def a b).symm

theorem pymax_eq (a b : ℚ) : pymax a b = max a b := (max_def a b).symm

/-- One step of the `min_x/min_y/max_x/max_y` accumulation: `none` plays the
role of the `found_any = False` state (accumulator still at ±inf). -/
def extendAcc (acc : Option (ℚ × ℚ × ℚ × ℚ)) (r : ℚ × ℚ × ℚ × ℚ) :
    Option (ℚ × ℚ × ℚ × ℚ) :=
  match acc with
  | none => some r
  | some (a, b, c, d) =>
      some (pymin a r.1, pymin b r.2.1, pymax c r.2.2.1, pymax d r.2.2.2)

/-- The `[x, y, x+w, y+h]` rectangle a visible body part contributes. -/
def bpRect (bp : BodyPart) : ℚ × ℚ × ℚ × ℚ :=
  (bp.position.x, bp.position.y,
   bp.position.x + bp.size.x, bp.position.y + bp.size.y)

/-- The rectangle an enabled entity-level hitbox contributes
(`pivot + hitbox offset`, extended by the hitbox width/height). -/
def hbRect (pivot : Vec2) (hb : Hitbox) : ℚ × ℚ × ℚ × ℚ :=
  (pivot.x + hb.x, pivot.y + hb.y,
   pivot.x + hb.x + hb.width, pivot.y + hb.y + hb.height)

/-- `calculate_entity_bounds(entity)` (geometry_utils.py, lines 5-64). -/
def calculate_entity_bounds (e : Entity) : BoundsResult :=
  if e.body_parts = [] ∧ e.entity_hitboxes = [] then
    .pair 64 64
  else
    let acc1 := e.body_parts.foldl
      (fun acc bp => if bp.visible then extendAcc acc (bpRect bp) else acc) none
    let acc2 := e.entity_hitboxes.foldl
      (fun acc hb => if hb.enabled then extendAcc acc (hbRect e.pivot hb) else acc) acc1
    match acc2 with
    | none => .quad 0 0 64 64
    | some (mnx, mny, mxx, mxy) =>
        .quad mnx mny (pymax (mxx - mnx) 16) (pymax (mxy - mny) 16)

/-- The list of rectangles that actually contribute to the accumulator:
visible body parts first, then enabled entity-level hitboxes, in program
order. -/
def contribRects (e : Entity) : List (ℚ × ℚ × ℚ × ℚ) :=
  (e.body_parts.filterMap fun bp => if bp.visible then some (bpRect bp) else none)
    ++ (e.entity_hitboxes.filterMap fun hb =>
          if hb.enabled then some (hbRect e.pivot hb) else none)

/-- Componentwise min/min/max/max fold over contributed rectangles, the
`some`-state of the accumulator. -/
def accFold (r0 : ℚ × ℚ × ℚ × ℚ) (l : List (ℚ × ℚ × ℚ × ℚ)) : ℚ × ℚ × ℚ × ℚ :=
  l.foldl
    (fun a r => (min a.1 r.1, min a.2.1 r.2.1,
                 max a.2.2.1 r.2.2.1, max a.2.2.2 r.2.2.2)) r0

theorem foldl_guard_eq_filterMap {α : Type} (p : α → Bool)
    (g : α → ℚ × ℚ × ℚ × ℚ) :
    ∀ (l : List α) (acc : Option (ℚ × ℚ × ℚ × ℚ)),
      l.foldl (fun a x => if p x then extendAcc a (g x) else a) acc
        = (l.filterMap fun x => if p x then some (g x) else none).foldl extendAcc acc := by
  intro l
  induction l with
  | nil => intro acc; rfl
  | cons x xs ih =>
      intro acc
      by_cases hx : p x
      · simp [hx, List.filterMap_cons, ih]
      · simp [hx, List.filterMap_cons, ih]

theorem foldl_extendAcc_some :
    ∀ (l : List (ℚ × ℚ × ℚ × ℚ)) (r0 : ℚ × ℚ × ℚ × ℚ),
      l.foldl extendAcc (some r0) = some (accFold r0 l) := by
  intro l
  induction l with
  | nil => intro r0; rfl
  | cons r rs ih =>
      intro r0
      obtain ⟨a, b, c, d⟩ := r0
      simp only [List.foldl_cons, extendAcc, accFold, pymin_eq, pymax_eq] at *
      exact ih _

theorem accFold_components :
    ∀ (l : List (ℚ × ℚ × ℚ × ℚ)) (r0 : ℚ × ℚ × ℚ × ℚ),
      accFold r0 l = ((l.map (fun r => r.1)).foldl min r0.1,
                      (l.map (fun r => r.2.1)).foldl min r0.2.1,
                      (l.map (fun r => r.2.2.1)).foldl max r0.2.2.1,
                      (l.map (fun r => r.2.2.2)).foldl max r0.2.2.2) := by
  intro l
  induction l with
  | nil => intro r0; rfl
  | cons r rs ih =>
      intro r0
      simp only [accFold, List.foldl_cons, List.map_cons] at *
      exact ih _

theorem foldl_min_le (l : List ℚ) (a : ℚ) :
    l.foldl min a ≤ a ∧ ∀ x ∈ l, l.foldl min a ≤ x := by
  induction l generalizing a with
  | nil => simp
  | cons y ys ih =>
      obtain ⟨h1, h2⟩ := ih (min a y)
      constructor
      · rw [List.foldl_cons]
        exact le_trans h1 (min_le_left _ _)
      · intro x hx
        rw [List.foldl_cons]
        rcases List.mem_cons.mp hx with h | h
        · subst h
          exact le_trans h1 (min_le_right _ _)
        · exact h2 x h

theorem foldl_min_mem (l : List ℚ) (a : ℚ) :
    l.foldl min a = a ∨ l.foldl min a ∈ l := by
  induction l generalizing a with
  | nil => left; rfl
  | cons y ys ih =>
      rcases ih (min a y) with h | h
      · rcases min_choice a y with h' | h'
        · left
          rw [List.foldl_cons, h]
          exact h'
        · right
          rw [List.foldl_cons, h, h']
          exact List.mem_cons_self y ys
      · right
        rw [List.foldl_cons]
        exact List.mem_cons_of_mem _ h

theorem foldl_max_ge (l : List ℚ) (a : ℚ) :
    a ≤ l.foldl max a ∧ ∀ x ∈ l, x ≤ l.foldl max a := by
  induction l generalizing a with
  | nil => simp
  | cons y ys ih =>
      obtain ⟨h1, h2⟩ := ih (max a y)
      constructor
      · rw [List.foldl_cons]
        exact le_trans (le_max_left _ _) h1
      · intro x hx
        rw [List.foldl_cons]
        rcases List.mem_cons.mp hx with h | h
        · subst h
          exact le_trans (le_max_right _ _) h1
        · exact h2 x h

theorem foldl_max_mem (l : List ℚ) (a : ℚ) :
    l.foldl max a = a ∨ l.foldl max a ∈ l := by
  induction l generalizing a with
  | nil => left; rfl
  | cons y ys ih =>
      rcases ih (max a y) with h | h
      · rcases max_choice a y with h' | h'
        · left
          rw [List.foldl_cons, h]
          exact h'
        · right
          rw [List.foldl_cons, h, h']
          exact List.mem_cons_self y ys
      · right
        rw [List.foldl_cons]
        exact List.mem_cons_of_mem _ h

/-- The accumulator reached by `calculate_entity_bounds` equals the
`extendAcc`-fold over the list of contributing rectangles. -/
theorem bounds_acc_eq_contrib (e : Entity) :
    (e.entity_hitboxes.foldl
      (fun acc hb => if hb.enabled then extendAcc acc (hbRect e.pivot hb) else acc)
      (e.body_parts.foldl
        (fun acc bp => if bp.visible then extendAcc acc (bpRect bp) else acc) none))
      = (contribRects e).foldl extendAcc none := by
  rw [foldl_guard_eq_filterMap (fun bp => bp.visible) bpRect,
      foldl_guard_eq_filterMap (fun hb => hb.enabled) (hbRect e.pivot),
      contribRects, List.foldl_append]

theorem foldl_min_spec (x : ℚ) (xs : List ℚ) :
    xs.foldl min x ∈ x :: xs ∧ ∀ q ∈ x :: xs, xs.foldl min x ≤ q := by
  obtain ⟨h1, h2⟩ := foldl_min_le xs x
  constructor
  · rcases foldl_min_mem xs x with h | h
    · rw [h]; exact List.mem_cons_self x xs
    · exact List.mem_cons_of_mem _ h
  · intro q hq
    rcases List.mem_cons.mp hq with h | h
    · subst h; exact h1
    · exact h2 q h

theorem foldl_max_spec (x : ℚ) (xs : List ℚ) :
    xs.foldl max x ∈ x :: xs ∧ ∀ q ∈ x :: xs, q ≤ xs.foldl max x := by
  obtain ⟨h1, h2⟩ := foldl_max_ge xs x
  constructor
  · rcases foldl_max_mem xs x with h | h
    · rw [h]; exact List.mem_cons_self x xs
    · exact List.mem_cons_of_mem _ h
  · intro q hq
    rcases List.mem_cons.mp hq with h | h
    · subst h; exact h1
    · exact h2 q h

/-- Left x-coordinates of the contributing rectangles. -/
def contribXs (e : Entity) : List ℚ := (contribRects e).map (fun t => t.1)

/-- Top y-coordinates of the contributing rectangles. -/
def contribYs (e : Entity) : List ℚ := (contribRects e).map (fun t => t.2.1)

/-- Right x-coordinates of the contributing rectangles. -/
def contribXe (e : Entity) : List ℚ := (contribRects e).map (fun t => t.2.2.1)

/-- Bottom y-coordinates of the contributing rectangles. -/
def contribYe (e : Entity) : List ℚ := (contribRects e).map (fun t => t.2.2.2)

theorem bounds_eq_of_contrib (e : Entity) (r : ℚ × ℚ × ℚ × ℚ)
    (rs : List (ℚ × ℚ × ℚ × ℚ)) (hcons : contribRects e = r :: rs) :
    calculate_entity_bounds e =
      .quad ((rs.map (fun t => t.1)).foldl min r.1)
            ((rs.map (fun t => t.2.1)).foldl min r.2.1)
            (max ((rs.map (fun t => t.2.2.1)).foldl max r.2.2.1
                  - (rs.map (fun t => t.1)).foldl min r.1) 16)
            (max ((rs.map (fun t => t.2.2.2)).foldl max r.2.2.2
                  - (rs.map (fun t => t.2.1)).foldl min r.2.1) 16) := by
  have hne : ¬(e.body_parts = [] ∧ e.entity_hitboxes = []) := by
    rintro ⟨h1, h2⟩
    have : contribRects e = [] := by simp [contribRects, h1, h2]
    rw [hcons] at this
    exact List.cons_ne_nil _ _ this
  simp only [calculate_entity_bounds, if_neg hne]
  rw [bounds_acc_eq_contrib, hcons, List.foldl_cons]
  show (match rs.foldl extendAcc (some r) with
        | none => BoundsResult.quad 0 0 64 64
        | some (mnx, mny, mxx, mxy) =>
            BoundsResult.quad mnx mny (pymax (mxx - mnx) 16) (pymax (mxy - mny) 16)) = _
  rw [foldl_extendAcc_some, accFold_components]
  simp only [pymax_eq]

/-- C6 — Bounds floor: whenever at least one visible body part or enabled
entity-level hitbox contributes, `calculate_entity_bounds` returns a
four-component box whose origin is the true minimum of the contributing
rectangles and whose width and height are the true extents floored at 16. -/
theorem bounds_floor_sixteen (e : Entity) (h : contribRects e ≠ []) :
    ∃ mnx mny mxx mxy,
      calculate_entity_bounds e
        = .quad mnx mny (max (mxx - mnx) 16) (max (mxy - mny) 16)
      ∧ mnx ∈ contribXs e ∧ (∀ q ∈ contribXs e, mnx ≤ q)
      ∧ mny ∈ contribYs e ∧ (∀ q ∈ contribYs e, mny ≤ q)
      ∧ mxx ∈ contribXe e ∧ (∀ q ∈ contribXe e, q ≤ mxx)
      ∧ mxy ∈ contribYe e ∧ (∀ q ∈ contribYe e, q ≤ mxy) := by
  obtain ⟨r, rs, hcons⟩ := List.exists_cons_of_ne_nil h
  have hXs : contribXs e = r.1 :: rs.map (fun t => t.1) := by
    rw [contribXs, hcons, List.map_cons]
  have hYs : contribYs e = r.2.1 :: rs.map (fun t => t.2.1) := by
    rw [contribYs, hcons, List.map_cons]
  have hXe : contribXe e = r.2.2.1 :: rs.map (fun t => t.2.2.1) := by
    rw [contribXe, hcons, List.map_cons]
  have hYe : contribYe e = r.2.2.2 :: rs.map (fun t => t.2.2.2) := by
    rw [contribYe, hcons, List.map_cons]
  obtain ⟨m1, m2⟩ := foldl_min_spec r.1 (rs.map (fun t => t.1))
  obtain ⟨n1, n2⟩ := foldl_min_spec r.2.1 (rs.map (fun t => t.2.1))
  obtain ⟨p1, p2⟩ := foldl_max_spec r.2.2.1 (rs.map (fun t => t.2.2.1))
  obtain ⟨q1, q2⟩ := foldl_max_spec r.2.2.2 (rs.map (fun t => t.2.2.2))
  refine ⟨_, _, _, _, bounds_eq_of_contrib e r rs hcons, ?_, ?_, ?_, ?_, ?_, ?_, ?_, ?_⟩
  · rw [hXs]; exact m1
  · rw [hXs]; exact m2
  · rw [hYs]; exact n1
  · rw [hYs]; exact n2
  · rw [hXe]; exact p1
  · rw [hXe]; exact p2
  · rw [hYe]; exact q1
  · rw [hYe]; exact q2

/-- Closed witness for C6: a single visible 4×4 sprite at the origin yields
bounds `(0, 0, 16, 16)`. -/
theorem bounds_floor_sixteen_witness :
    (contribRects { body_parts := [{ size := ⟨4, 4⟩ }] } ≠ [])
    ∧ (∃ mnx mny mxx mxy,
        calculate_entity_bounds { body_parts := [{ size := ⟨4, 4⟩ }] }
          = .quad mnx mny (max (mxx - mnx) 16) (max (mxy - mny) 16)
        ∧ mnx ∈ contribXs { body_parts := [{ size := ⟨4, 4⟩ }] }
        ∧ (∀ q ∈ contribXs { body_parts := [{ size := ⟨4, 4⟩ }] }, mnx ≤ q)
        ∧ mny ∈ contribYs { body_parts := [{ size := ⟨4, 4⟩ }] }
        ∧ (∀ q ∈ contribYs { body_parts := [{ size := ⟨4, 4⟩ }] }, mny ≤ q)
        ∧ mxx ∈ contribXe { body_parts := [{ size := ⟨4, 4⟩ }] }
        ∧ (∀ q ∈ contribXe { body_parts := [{ size := ⟨4, 4⟩ }] }, q ≤ mxx)
        ∧ mxy ∈ contribYe { body_parts := [{ size := ⟨4, 4⟩ }] }
        ∧ (∀ q ∈ contribYe { body_parts := [{ size := ⟨4, 4⟩ }] }, q ≤ mxy))
    ∧ calculate_entity_bounds { body_parts := [{ size := ⟨4, 4⟩ }] }
        = .quad 0 0 16 16 :=
  ⟨by decide, bounds_floor_sixteen { body_parts := [{ size := ⟨4, 4⟩ }] } (by decide),
   by norm_num [calculate_entity_bounds, extendAcc, bpRect, pymin, pymax]⟩

/-- C5 — Empty-entity default: on a definition with no body parts and no
hitboxes at all, `calculate_entity_bounds` hits the early return and yields
the two-component tuple `(64.0, 64.0)`, not a four-component box; its only
callers unpack four components. -/
theorem empty_entity_bounds_two_tuple :
    calculate_entity_bounds { body_parts := [], entity_hitboxes := [] }
      = .pair 64 64 := by
  decide

/-- C10 — The bounds calculator reads only `x`/`y`/`width`/`height` and
`enabled` from each entity-level hitbox: overriding every hitbox's `shape`
tag and `radius` leaves the computed bounds unchanged. -/
theorem bounds_ignore_hitbox_shape (e : Entity) (s : HitboxShape) (r : ℤ) :
    calculate_entity_bounds
      { e with entity_hitboxes :=
          e.entity_hitboxes.map (fun hb => { hb with shape := s, radius := r }) }
      = calculate_entity_bounds e := by
  simp [calculate_entity_bounds, List.foldl_map, hbRect]

/-! ## Entity manager (src/tools/entity_editor/core/entity_manager.py)

`EntityManager` holds the name → path index (`_name_to_path`), the
path → definition cache (`_cache`), and reacts to "entity saved" signals.
Python dicts are embedded as association lists with unique keys
(`dictSet` overwrites); loaded definitions are tagged with a fresh
allocation counter so that Python object identity (reference equality)
is expressible.  `EntityDeserializer.load` may raise or return a falsy
value; both are embedded in the loader's `Except`/`Option` result, and
`get_entity_def` catches the error case exactly as the `try/except` in
the source does. -/

/-- A loaded definition together with its allocation identity. -/
abbrev Obj := Entity × Nat

/-- Python's `str.endswith`. -/
def pyEndsWith (s suffix : String) : Bool :=
  suffix.data.reverse.isPrefixOf s.data.reverse

/-- Replace every non-overlapping occurrence of `pat` left-to-right
(Python's `str.replace` semantics); structural fuel keeps the recursion
kernel-reducible, `pyReplace` supplies a sufficient fuel. -/
def replaceAllAux (pat rep : List Char) : Nat → List Char → List Char
  | _, [] => []
  | 0, s => s
  | fuel+1, c :: cs =>
      if pat ≠ [] ∧ pat.isPrefixOf (c :: cs)
      then rep ++ replaceAllAux pat rep fuel ((c :: cs).drop pat.length)
      else c :: replaceAllAux pat rep fuel cs

/-- Python's `str.replace` on whole strings. -/
def pyReplace (s pat rep : String) : String :=
  ⟨replaceAllAux pat.data rep.data s.data.length s.data⟩

/-- Dictionary read: first entry with the given key. -/
def dictGet {α : Type} (k : String) : List (String × α) → Option α
  | [] => none
  | p :: ps => if p.1 = k then some p.2 else dictGet k ps

/-- Dictionary write (`d[k] = v`): overwrite the key if present. -/
def dictSet {α : Type} : List (String × α) → String → α → List (String × α)
  | [], k, v => [(k, v)]
  | p :: ps, k, v => if p.1 = k then (k, v) :: ps else p :: dictSet ps k v

theorem dictGet_dictSet_self {α : Type} (m : List (String × α)) (k : String) (v : α) :
    dictGet k (dictSet m k v) = some v := by
  induction m with
  | nil => simp [dictGet, dictSet]
  | cons p ps ih =>
      by_cases h : p.1 = k
      · simp [dictGet, dictSet, h]
      · simp [dictGet, dictSet, h, ih]

/-- One directory of the configured search paths: its `os.path.exists`
status and the files `os.walk` would yield, as (filename, absolute path). -/
structure FSDir where
  present : Bool
  files : List (String × String)
deriving DecidableEq, Repr

/-- The external collaborators of the manager: the project's two scan
roots (generalised to a list) and the deserializer.  A loader result of
`.error` models `EntityDeserializer.load` raising; `.ok none` models a
falsy result. -/
structure Project where
  dirs : List FSDir
  loader : String → Except Unit (Option Entity)

/-- The manager's mutable state. -/
structure MgrState where
  name_to_path : List (String × String)
  cache : List (String × Obj)
  counter : Nat
deriving DecidableEq, Repr

/-- One directory of `_scan_available_entities`: a non-existent directory
is skipped; each `*.entdef` file is recorded under its bare name and its
filename-with-extension. -/
def scanDir (m : List (String × String)) (d : FSDir) : List (String × String) :=
  if d.present then
    d.files.foldl
      (fun m fp =>
        if pyEndsWith fp.1 ".entdef" then
          dictSet (dictSet m (pyReplace fp.1 ".entdef" "") fp.2) fp.1 fp.2
        else m) m
  else m

/-- `_scan_available_entities`: fold over the configured search paths,
adding to (not clearing) the existing index. -/
def scanAvailable (proj : Project) (m : List (String × String)) : List (String × String) :=
  proj.dirs.foldl scanDir m

/-- Steps 2-3 of `get_entity_def` (cache check, then load-and-store),
with `m` the name-to-path index after the resolution step. -/
def fetchStep (proj : Project) (st : MgrState) (m : List (String × String))
    (fp : String) : Option Obj × MgrState :=
  match dictGet fp st.cache with
  | some obj => (some obj, { st with name_to_path := m })
  | none =>
      match proj.loader fp with
      | .ok (some e) =>
          (some (e, st.counter),
           { name_to_path := m,
             cache := dictSet st.cache fp (e, st.counter),
             counter := st.counter + 1 })
      | _ => (none, { st with name_to_path := m })

/-- `get_entity_def(ref_name)` (entity_manager.py, lines 88-120): resolve
the name, re-scanning once on a miss; then serve from the cache or load
and memoise.  The open project is a parameter, so the `if not
self._project` guard is outside the model. -/
def get_entity_def (proj : Project) (st : MgrState) (ref_name : String) :
    Option Obj × MgrState :=
  if ref_name = "" then (none, st)
  else
    match dictGet ref_name st.name_to_path with
    | some fp => fetchStep proj st st.name_to_path fp
    | none =>
        let m := scanAvailable proj st.name_to_path
        match dictGet ref_name m with
        | some fp => fetchStep proj st m fp
        | none => (none, { st with name_to_path := m })

/-- `_on_entity_saved(filepath)` (entity_manager.py, lines 61-86): evict
every cache entry whose `Path.resolve()`-normalised key equals the saved
path's normalisation; returns the evicted keys (the
`notify_referenced_entity_saved` emissions). -/
def on_entity_saved (resolve : String → String) (st : MgrState)
    (filepath : String) : MgrState × List String :=
  let fs_path := resolve filepath
  let keys_to_remove := (st.cache.map Prod.fst).filter
    (fun k => decide (resolve k = fs_path))
  ({ st with cache := (st.cache.filter (fun p => decide (resolve p.1 ≠ fs_path))) },
   keys_to_remove)

theorem dictGet_filter_resolve_none (resolve : String → String)
    (x : String) (k : String) (hk : resolve k = x) :
    ∀ (l : List (String × Obj)),
      dictGet k (l.filter (fun p => decide (resolve p.1 ≠ x))) = none := by
  intro l
  induction l with
  | nil => rfl
  | cons p ps ih =>
      by_cases hp : resolve p.1 = x
      · have hd : (decide (resolve p.1 ≠ x)) = false := by simp [hp]
        rw [List.filter_cons, hd]
        exact ih
      · have hd : (decide (resolve p.1 ≠ x)) = true := by simp [hp]
        have hpk : p.1 ≠ k := fun h => hp (h ▸ hk)
        rw [List.filter_cons, hd]
        show (if p.1 = k then some p.2 else
          dictGet k (ps.filter (fun p => decide (resolve p.1 ≠ x)))) = none
        rw [if_neg hpk]
        exact ih

theorem fetchStep_ntp (proj : Project) (st : MgrState)
    (m : List (String × String)) (fp : String) :
    ((fetchStep proj st m fp).2).name_to_path = m := by
  unfold fetchStep
  cases dictGet fp st.cache with
  | some obj => rfl
  | none =>
      cases hL : proj.loader fp with
      | error u => rfl
      | ok o => cases o <;> rfl

theorem fetchStep_cache_hit (proj : Project) (st : MgrState)
    (m : List (String × String)) (fp : String) (obj : Obj)
    (h : dictGet fp st.cache = some obj) :
    fetchStep proj st m fp = (some obj, { st with name_to_path := m }) := by
  unfold fetchStep
  rw [h]

theorem fetchStep_load (proj : Project) (st : MgrState)
    (m : List (String × String)) (fp : String) (e : Entity)
    (hmiss : dictGet fp st.cache = none)
    (hload : proj.loader fp = .ok (some e)) :
    fetchStep proj st m fp =
      (some (e, st.counter),
       { name_to_path := m,
         cache := dictSet st.cache fp (e, st.counter),
         counter := st.counter + 1 }) := by
  unfold fetchStep
  rw [hmiss, hload]

/-- On a cache miss, a successful `fetchStep` result pins the loader
result, the returned identity and the whole output state. -/
theorem fetchStep_success_of_miss (proj : Project) (st : MgrState)
    (m : List (String × String)) (fp : String) (e : Entity) (i : Nat)
    (st' : MgrState)
    (hmiss : dictGet fp st.cache = none)
    (h : fetchStep proj st m fp = (some (e, i), st')) :
    proj.loader fp = .ok (some e) ∧ i = st.counter ∧
      st' = { name_to_path := m,
              cache := dictSet st.cache fp (e, st.counter),
              counter := st.counter + 1 } := by
  unfold fetchStep at h
  rw [hmiss] at h
  cases hL : proj.loader fp with
  | error u =>
      rw [hL] at h
      simp at h
  | ok o =>
      cases o with
      | none =>
          rw [hL] at h
          simp at h
      | some e0 =>
          rw [hL] at h
          simp only [Prod.mk.injEq, Option.some.injEq] at h
          obtain ⟨⟨he, hi⟩, hst⟩ := h
          subst he
          subst hi
          exact ⟨rfl, rfl, hst.symm⟩

theorem get_success_cases (proj : Project) (st : MgrState) (name : String)
    (e : Entity) (i : Nat) (st' : MgrState)
    (hget : get_entity_def proj st name = (some (e, i), st')) :
    ∃ fp, dictGet name st'.name_to_path = some fp ∧
      fetchStep proj st st'.name_to_path fp = (some (e, i), st') := by
  have hname : name ≠ "" := by
    intro h
    rw [h] at hget
    simp [get_entity_def] at hget
  unfold get_entity_def at hget
  rw [if_neg hname] at hget
  cases hdg : dictGet name st.name_to_path with
  | some fp =>
      simp only [hdg] at hget
      have hntp := fetchStep_ntp proj st st.name_to_path fp
      rw [hget] at hntp
      refine ⟨fp, ?_, ?_⟩
      · rw [hntp]
        exact hdg
      · rw [hntp]
        exact hget
  | none =>
      simp only [hdg] at hget
      cases hdm : dictGet name (scanAvailable proj st.name_to_path) with
      | none =>
          simp only [hdm] at hget
          simp at hget
      | some fp =>
          simp only [hdm] at hget
          have hntp := fetchStep_ntp proj st (scanAvailable proj st.name_to_path) fp
          rw [hget] at hntp
          refine ⟨fp, ?_, ?_⟩
          · rw [hntp]
            exact hdm
          · rw [hntp]
            exact hget

theorem fetchStep_result_cached (proj : Project) (st : MgrState)
    (m : List (String × String)) (fp : String) (e : Entity) (i : Nat)
    (st' : MgrState)
    (h : fetchStep proj st m fp = (some (e, i), st')) :
    dictGet fp st'.cache = some (e, i) := by
  cases hc : dictGet fp st.cache with
  | some obj =>
      rw [fetchStep_cache_hit proj st m fp obj hc] at h
      simp only [Prod.mk.injEq, Option.some.injEq] at h
      obtain ⟨hobj, hst⟩ := h
      rw [← hst]
      show dictGet fp st.cache = some (e, i)
      rw [hc, hobj]
  | none =>
      obtain ⟨hload, hi, hst⟩ := fetchStep_success_of_miss proj st m fp e i st' hc h
      rw [hst]
      show dictGet fp (dictSet st.cache fp (e, st.counter)) = some (e, i)
      rw [dictGet_dictSet_self, hi]

/-- Repeating a successful `get_entity_def` with no intervening change
returns the very same object and leaves the state unchanged: the second
call resolves directly and hits the cache. -/
theorem get_entity_def_stable (proj : Project) (st : MgrState) (name : String)
    (e : Entity) (i : Nat) (st' : MgrState)
    (hget : get_entity_def proj st name = (some (e, i), st')) :
    get_entity_def proj st' name = (some (e, i), st') := by
  have hname : name ≠ "" := by
    intro h
    rw [h] at hget
    simp [get_entity_def] at hget
  obtain ⟨fp, hfp, hfetch⟩ := get_success_cases proj st name e i st' hget
  have hc := fetchStep_result_cached proj st st'.name_to_path fp e i st' hfetch
  unfold get_entity_def
  rw [if_neg hname, hfp]
  show fetchStep proj st' st'.name_to_path fp = _
  rw [fetchStep_cache_hit proj st' st'.name_to_path fp (e, i) hc]

/-- C3 — Cache coherence: after a `get_entity_def` that freshly loads and
caches the definition at path `P`, processing a "definition saved at P"
event evicts that entry, and the next `get_entity_def` of the same name
returns a freshly loaded object whose allocation identity differs from the
cached one. -/
theorem cache_coherence_after_save
    (proj : Project) (resolve : String → String) (st st1 : MgrState)
    (name P : String) (e1 : Entity) (i1 : Nat)
    (hget : get_entity_def proj st name = (some (e1, i1), st1))
    (hP : dictGet name st1.name_to_path = some P)
    (hmiss : dictGet P st.cache = none) :
    dictGet P ((on_entity_saved resolve st1 P).1).cache = none
    ∧ (∃ st3, get_entity_def proj ((on_entity_saved resolve st1 P).1) name
        = (some (e1, i1 + 1), st3))
    ∧ i1 + 1 ≠ i1 := by
  have hname : name ≠ "" := by
    intro h
    rw [h] at hget
    simp [get_entity_def] at hget
  obtain ⟨fp, hfp, hfetch⟩ := get_success_cases proj st name e1 i1 st1 hget
  have hfpP : fp = P := by
    rw [hfp] at hP
    exact Option.some.inj hP
  subst hfpP
  obtain ⟨hload, hi, hst1⟩ :=
    fetchStep_success_of_miss proj st st1.name_to_path fp e1 i1 st1 hmiss hfetch
  have hcache2 :
      ((on_entity_saved resolve st1 fp).1).cache
        = st1.cache.filter (fun p => decide (resolve p.1 ≠ resolve fp)) := rfl
  have hntp2 : ((on_entity_saved resolve st1 fp).1).name_to_path
      = st1.name_to_path := rfl
  have hcnt2 : ((on_entity_saved resolve st1 fp).1).counter = st1.counter := rfl
  have hevict : dictGet fp ((on_entity_saved resolve st1 fp).1).cache = none := by
    rw [hcache2]
    exact dictGet_filter_resolve_none resolve (resolve fp) fp rfl st1.cache
  have hc1 : ((on_entity_saved resolve st1 fp).1).counter = i1 + 1 := by
    have hs := congrArg MgrState.counter hst1
    rw [hcnt2, hs, hi]
  have hsecond : get_entity_def proj ((on_entity_saved resolve st1 fp).1) name
      = (some (e1, i1 + 1),
         { name_to_path := st1.name_to_path,
           cache := dictSet ((on_entity_saved resolve st1 fp).1).cache fp
             (e1, i1 + 1),
           counter := (i1 + 1) + 1 }) := by
    unfold get_entity_def
    rw [if_neg hname, hntp2, hfp]
    show fetchStep proj ((on_entity_saved resolve st1 fp).1) st1.name_to_path fp = _
    rw [fetchStep_load proj ((on_entity_saved resolve st1 fp).1) st1.name_to_path fp e1
        hevict hload, hc1]
  exact ⟨hevict, ⟨_, hsecond⟩, by omega⟩

/-- Concrete definition used by the manager witnesses. -/
def entX : Entity := { name := "X" }

/-- Concrete project whose deserializer knows one file. -/
def projX : Project :=
  { dirs := [],
    loader := fun p => if p = "/e/X.entdef" then .ok (some entX) else .error () }

/-- Manager state with the index built and an empty cache. -/
def st0X : MgrState :=
  { name_to_path := [("X", "/e/X.entdef")], cache := [], counter := 0 }

/-- The state after `get_entity_def projX st0X "X"`. -/
def st1X : MgrState :=
  { name_to_path := [("X", "/e/X.entdef")],
    cache := [("/e/X.entdef", (entX, 0))],
    counter := 1 }

/-- Closed witness for C3 at a concrete project, state and path. -/
theorem cache_coherence_after_save_witness :
    (get_entity_def projX st0X "X" = (some (entX, 0), st1X))
    ∧ (dictGet "X" st1X.name_to_path = some "/e/X.entdef")
    ∧ (dictGet "/e/X.entdef" st0X.cache = none)
    ∧ (dictGet "/e/X.entdef" ((on_entity_saved id st1X "/e/X.entdef").1).cache = none
       ∧ (∃ st3, get_entity_def projX ((on_entity_saved id st1X "/e/X.entdef").1) "X"
           = (some (entX, 0 + 1), st3))
       ∧ 0 + 1 ≠ 0) :=
  ⟨by decide, by decide, by decide,
   cache_coherence_after_save projX id st0X st1X "X" "/e/X.entdef" entX 0
     (by decide) (by decide) (by decide)⟩

/-- C7 — Resolve-miss retry: when `get_entity_def` misses the index, the
index is rebuilt by one re-scan and the lookup retried before `None` is
reported; a retried hit proceeds into the cache/load step; a configured
directory that does not exist is skipped by `scanDir` without effect. -/
theorem resolve_miss_rescan_retry (proj : Project) (st : MgrState) (name : String)
    (h1 : name ≠ "") (h2 : dictGet name st.name_to_path = none) :
    ((get_entity_def proj st name).2.name_to_path = scanAvailable proj st.name_to_path)
    ∧ (dictGet name (scanAvailable proj st.name_to_path) = none →
        get_entity_def proj st name
          = (none, { st with name_to_path := scanAvailable proj st.name_to_path }))
    ∧ (∀ fp obj, dictGet name (scanAvailable proj st.name_to_path) = some fp →
        dictGet fp st.cache = some obj →
        get_entity_def proj st name
          = (some obj, { st with name_to_path := scanAvailable proj st.name_to_path }))
    ∧ (∀ (m : List (String × String)) (d : FSDir), d.present = false →
        scanDir m d = m) := by
  refine ⟨?_, ?_, ?_, ?_⟩
  · unfold get_entity_def
    rw [if_neg h1]
    simp only [h2]
    cases hdm : dictGet name (scanAvailable proj st.name_to_path) with
    | none => simp only [hdm]
    | some fp =>
        simp only [hdm]
        exact fetchStep_ntp proj st _ fp
  · intro hnone
    unfold get_entity_def
    rw [if_neg h1]
    simp only [h2, hnone]
  · intro fp obj hfp hobj
    unfold get_entity_def
    rw [if_neg h1]
    simp only [h2, hfp]
    exact fetchStep_cache_hit proj st _ fp obj hobj
  · intro m d hd
    simp [scanDir, hd]

/-- Concrete project for the C7 witness: the first configured directory
does not exist, the second holds `X.entdef`. -/
def projScan : Project :=
  { dirs := [{ present := false, files := [("Bad.entdef", "/bad/Bad.entdef")] },
             { present := true, files := [("X.entdef", "/e2/X.entdef")] }],
    loader := fun _ => .error () }

/-- Manager state for the C7 witness: empty index, warm cache entry. -/
def st0Scan : MgrState :=
  { name_to_path := [], cache := [("/e2/X.entdef", (entX, 5))], counter := 6 }

/-- Closed witness for C7 at a concrete project and state. -/
theorem resolve_miss_rescan_retry_witness :
    ("X" ≠ "")
    ∧ (dictGet "X" st0Scan.name_to_path = none)
    ∧ (((get_entity_def projScan st0Scan "X").2.name_to_path
          = scanAvailable projScan st0Scan.name_to_path)
      ∧ (dictGet "X" (scanAvailable projScan st0Scan.name_to_path) = none →
          get_entity_def projScan st0Scan "X"
            = (none, { st0Scan with
                name_to_path := scanAvailable projScan st0Scan.name_to_path }))
      ∧ (∀ fp obj, dictGet "X" (scanAvailable projScan st0Scan.name_to_path) = some fp →
          dictGet fp st0Scan.cache = some obj →
          get_entity_def projScan st0Scan "X"
            = (some obj, { st0Scan with
                name_to_path := scanAvailable projScan st0Scan.name_to_path }))
      ∧ (∀ (m : List (String × String)) (d : FSDir), d.present = false →
          scanDir m d = m)) :=
  ⟨by decide, by decide,
   resolve_miss_rescan_retry projScan st0Scan "X" (by decide) (by decide)⟩

/-! ## Reference geometry reconciler
(src/tools/entity_editor/ui/panels/bodyparts_panel.py, `_update_ref_geometry`,
lines 304-346)

The Python routine mutates `bp.size`, `bp.pivot_offset`, `bp.position` in
place and returns whether anything changed; the embedding returns the
updated body part and the flag.  The four-way tuple unpacking of
`calculate_entity_bounds` raises `ValueError` when the two-component early
return fires; that exception is the `Except.error` case. -/

/-- The pure geometry step of `_update_ref_geometry` once the target's
bounds `(mnx, mny, w, h)` are known: compute the new pivot offset, the
preserved world pivot and the new position, then write each field only if
it differs. -/
def applyRefGeometry (bp : BodyPart) (mnx mny w h : ℚ) : BodyPart × Bool :=
  let off_x := -(mnx + w / 2)
  let off_y := -(mny + h / 2)
  let current_pivot_x := bp.position.x + bp.size.x / 2 + bp.pivot_offset.x
  let current_pivot_y := bp.position.y + bp.size.y / 2 + bp.pivot_offset.y
  let new_pos_x := current_pivot_x - w / 2 - off_x
  let new_pos_y := current_pivot_y - h / 2 - off_y
  ({ bp with
      size := if bp.size.x ≠ w ∨ bp.size.y ≠ h then ⟨w, h⟩ else bp.size,
      pivot_offset :=
        if bp.pivot_offset.x ≠ off_x ∨ bp.pivot_offset.y ≠ off_y
        then ⟨off_x, off_y⟩ else bp.pivot_offset,
      position :=
        if bp.position.x ≠ new_pos_x ∨ bp.position.y ≠ new_pos_y
        then ⟨new_pos_x, new_pos_y⟩ else bp.position },
   decide (bp.size.x ≠ w ∨ bp.size.y ≠ h)
     || decide (bp.pivot_offset.x ≠ off_x ∨ bp.pivot_offset.y ≠ off_y)
     || decide (bp.position.x ≠ new_pos_x ∨ bp.position.y ≠ new_pos_y))

/-- `_update_ref_geometry(bp)`: early-out on an empty or unresolvable
reference, then reconcile against the target's bounds. -/
def update_ref_geometry (proj : Project) (st : MgrState) (bp : BodyPart) :
    Except String (BodyPart × Bool × MgrState) :=
  if bp.entity_ref = "" then .ok (bp, false, st)
  else
    match get_entity_def proj st bp.entity_ref with
    | (none, st') => .ok (bp, false, st')
    | (some (ref, _), st') =>
        match calculate_entity_bounds ref with
        | .pair _ _ => .error "ValueError: not enough values to unpack"
        | .quad mnx mny w h =>
            .ok ((applyRefGeometry bp mnx mny w h).1,
                 (applyRefGeometry bp mnx mny w h).2, st')

theorem applyRefGeometry_size_x (bp : BodyPart) (mnx mny w h : ℚ) :
    (applyRefGeometry bp mnx mny w h).1.size.x = w := by
  show (if bp.size.x ≠ w ∨ bp.size.y ≠ h then (⟨w, h⟩ : Vec2) else bp.size).x = w
  by_cases hc : bp.size.x ≠ w ∨ bp.size.y ≠ h
  · rw [if_pos hc]
  · rw [if_neg hc]
    push_neg at hc
    exact hc.1

theorem applyRefGeometry_size_y (bp : BodyPart) (mnx mny w h : ℚ) :
    (applyRefGeometry bp mnx mny w h).1.size.y = h := by
  show (if bp.size.x ≠ w ∨ bp.size.y ≠ h then (⟨w, h⟩ : Vec2) else bp.size).y = h
  by_cases hc : bp.size.x ≠ w ∨ bp.size.y ≠ h
  · rw [if_pos hc]
  · rw [if_neg hc]
    push_neg at hc
    exact hc.2

theorem applyRefGeometry_piv_x (bp : BodyPart) (mnx mny w h : ℚ) :
    (applyRefGeometry bp mnx mny w h).1.pivot_offset.x = -(mnx + w / 2) := by
  show (if bp.pivot_offset.x ≠ -(mnx + w / 2) ∨ bp.pivot_offset.y ≠ -(mny + h / 2)
        then (⟨-(mnx + w / 2), -(mny + h / 2)⟩ : Vec2) else bp.pivot_offset).x
      = -(mnx + w / 2)
  by_cases hc : bp.pivot_offset.x ≠ -(mnx + w / 2) ∨ bp.pivot_offset.y ≠ -(mny + h / 2)
  · rw [if_pos hc]
  · rw [if_neg hc]
    push_neg at hc
    exact hc.1

theorem applyRefGeometry_piv_y (bp : BodyPart) (mnx mny w h : ℚ) :
    (applyRefGeometry bp mnx mny w h).1.pivot_offset.y = -(mny + h / 2) := by
  show (if bp.pivot_offset.x ≠ -(mnx + w / 2) ∨ bp.pivot_offset.y ≠ -(mny + h / 2)
        then (⟨-(mnx + w / 2), -(mny + h / 2)⟩ : Vec2) else bp.pivot_offset).y
      = -(mny + h / 2)
  by_cases hc : bp.pivot_offset.x ≠ -(mnx + w / 2) ∨ bp.pivot_offset.y ≠ -(mny + h / 2)
  · rw [if_pos hc]
  · rw [if_neg hc]
    push_neg at hc
    exact hc.2

theorem applyRefGeometry_pos_x (bp : BodyPart) (mnx mny w h : ℚ) :
    (applyRefGeometry bp mnx mny w h).1.position.x
      = bp.position.x + bp.size.x / 2 + bp.pivot_offset.x - w / 2 - (-(mnx + w / 2)) := by
  show (if bp.position.x ≠ bp.position.x + bp.size.x / 2 + bp.pivot_offset.x
            - w / 2 - (-(mnx + w / 2))
          ∨ bp.position.y ≠ bp.position.y + bp.size.y / 2 + bp.pivot_offset.y
            - h / 2 - (-(mny + h / 2))
        then (⟨bp.position.x + bp.size.x / 2 + bp.pivot_offset.x - w / 2 - (-(mnx + w / 2)),
               bp.position.y + bp.size.y / 2 + bp.pivot_offset.y - h / 2 - (-(mny + h / 2))⟩
              : Vec2)
        else bp.position).x
      = bp.position.x + bp.size.x / 2 + bp.pivot_offset.x - w / 2 - (-(mnx + w / 2))
  by_cases hc : bp.position.x ≠ bp.position.x + bp.size.x / 2 + bp.pivot_offset.x
      - w / 2 - (-(mnx + w / 2))
    ∨ bp.position.y ≠ bp.position.y + bp.size.y / 2 + bp.pivot_offset.y
      - h / 2 - (-(mny + h / 2))
  · rw [if_pos hc]
  · rw [if_neg hc]
    push_neg at hc
    exact hc.1

theorem applyRefGeometry_pos_y (bp : BodyPart) (mnx mny w h : ℚ) :
    (applyRefGeometry bp mnx mny w h).1.position.y
      = bp.position.y + bp.size.y / 2 + bp.pivot_offset.y - h / 2 - (-(mny + h / 2)) := by
  show (if bp.position.x ≠ bp.position.x + bp.size.x / 2 + bp.pivot_offset.x
            - w / 2 - (-(mnx + w / 2))
          ∨ bp.position.y ≠ bp.position.y + bp.size.y / 2 + bp.pivot_offset.y
            - h / 2 - (-(mny + h / 2))
        then (⟨bp.position.x + bp.size.x / 2 + bp.pivot_offset.x - w / 2 - (-(mnx + w / 2)),
               bp.position.y + bp.size.y / 2 + bp.pivot_offset.y - h / 2 - (-(mny + h / 2))⟩
              : Vec2)
        else bp.position).y
      = bp.position.y + bp.size.y / 2 + bp.pivot_offset.y - h / 2 - (-(mny + h / 2))
  by_cases hc : bp.position.x ≠ bp.position.x + bp.size.x / 2 + bp.pivot_offset.x
      - w / 2 - (-(mnx + w / 2))
    ∨ bp.position.y ≠ bp.position.y + bp.size.y / 2 + bp.pivot_offset.y
      - h / 2 - (-(mny + h / 2))
  · rw [if_pos hc]
  · rw [if_neg hc]
    push_neg at hc
    exact hc.2

theorem applyRefGeometry_ref (bp : BodyPart) (mnx mny w h : ℚ) :
    (applyRefGeometry bp mnx mny w h).1.entity_ref = bp.entity_ref := rfl

theorem applyRefGeometry_kind (bp : BodyPart) (mnx mny w h : ℚ) :
    (applyRefGeometry bp mnx mny w h).1.part_type = bp.part_type := rfl

theorem dictGet_dictSet {α : Type} (m : List (String × α)) (a k : String) (v : α) :
    dictGet k (dictSet m a v) = if a = k then some v else dictGet k m := by
  induction m with
  | nil => simp [dictGet, dictSet]
  | cons p ps ih =>
      by_cases hp : p.1 = a
      · simp only [dictSet, if_pos hp, dictGet]
        by_cases hak : a = k
        · simp [hak]
        · have hpk : ¬ p.1 = k := by rw [hp]; exact hak
          simp [hak, dictGet, hpk, hp]
      · simp only [dictSet, if_neg hp, dictGet]
        by_cases hpk : p.1 = k
        · have hak : ¬ a = k := by
            intro hk
            exact hp (by rw [hk, hpk])
          simp [hpk, hak]
        · simp [hpk, ih]

theorem scan_fold_get_congr (k : String) :
    ∀ (files : List (String × String)) (m m' : List (String × String)),
      dictGet k m = dictGet k m' →
      dictGet k (files.foldl
        (fun m fp => if pyEndsWith fp.1 ".entdef"
          then dictSet (dictSet m (pyReplace fp.1 ".entdef" "") fp.2) fp.1 fp.2
          else m) m)
      = dictGet k (files.foldl
        (fun m fp => if pyEndsWith fp.1 ".entdef"
          then dictSet (dictSet m (pyReplace fp.1 ".entdef" "") fp.2) fp.1 fp.2
          else m) m') := by
  intro files
  induction files with
  | nil =>
      intro m m' hmm'
      exact hmm'
  | cons f fs ih =>
      intro m m' hmm'
      simp only [List.foldl_cons]
      apply ih
      by_cases he : pyEndsWith f.1 ".entdef"
      · simp only [if_pos he, dictGet_dictSet]
        by_cases h1 : f.1 = k
        · simp [h1]
        · by_cases h2 : pyReplace f.1 ".entdef" "" = k
          · simp [h1, h2]
          · simp [h1, h2, hmm']
      · simp only [if_neg he]
        exact hmm'

theorem scanDir_get_congr (k : String) (d : FSDir) (m m' : List (String × String))
    (hmm' : dictGet k m = dictGet k m') :
    dictGet k (scanDir m d) = dictGet k (scanDir m' d) := by
  unfold scanDir
  by_cases hp : d.present
  · rw [if_pos hp, if_pos hp]
    exact scan_fold_get_congr k d.files m m' hmm'
  · rw [if_neg hp, if_neg hp]
    exact hmm'

theorem scanAvailable_get_congr (proj : Project) (k : String)
    (m m' : List (String × String)) (hmm' : dictGet k m = dictGet k m') :
    dictGet k (scanAvailable proj m) = dictGet k (scanAvailable proj m') := by
  unfold scanAvailable
  generalize proj.dirs = ds
  induction ds generalizing m m' with
  | nil => exact hmm'
  | cons d ds ih =>
      simp only [List.foldl_cons]
      exact ih (scanDir m d) (scanDir m' d) (scanDir_get_congr k d m m' hmm')

theorem fetchStep_none_cases (proj : Project) (st : MgrState)
    (m : List (String × String)) (fp : String) (st' : MgrState)
    (h : fetchStep proj st m fp = (none, st')) :
    dictGet fp st.cache = none ∧ (∀ e, proj.loader fp ≠ .ok (some e))
    ∧ st' = { st with name_to_path := m } := by
  unfold fetchStep at h
  cases hc : dictGet fp st.cache with
  | some obj =>
      rw [hc] at h
      simp at h
  | none =>
      rw [hc] at h
      cases hL : proj.loader fp with
      | error u =>
          rw [hL] at h
          simp only [Prod.mk.injEq] at h
          exact ⟨rfl, fun e he => Except.noConfusion he, h.2.symm⟩
      | ok o =>
          cases o with
          | none =>
              rw [hL] at h
              simp only [Prod.mk.injEq] at h
              refine ⟨rfl, fun e he => ?_, h.2.symm⟩
              simp at he
          | some e0 =>
              rw [hL] at h
              simp at h

theorem fetchStep_fail (proj : Project) (st : MgrState)
    (m : List (String × String)) (fp : String)
    (hc : dictGet fp st.cache = none)
    (hl : ∀ e, proj.loader fp ≠ .ok (some e)) :
    fetchStep proj st m fp = (none, { st with name_to_path := m }) := by
  unfold fetchStep
  rw [hc]
  cases hL : proj.loader fp with
  | error u => rfl
  | ok o =>
      cases o with
      | none => rfl
      | some e => exact absurd hL (hl e)

/-- A `get_entity_def` that reported not-found keeps reporting not-found
when repeated with no intervening change: the rescan of an already
rescanned index resolves the same names. -/
theorem get_none_stable (proj : Project) (st : MgrState) (name : String)
    (st' : MgrState)
    (h : get_entity_def proj st name = (none, st')) :
    ∃ st2, get_entity_def proj st' name = (none, st2) := by
  by_cases hname : name = ""
  · refine ⟨st', ?_⟩
    unfold get_entity_def
    rw [if_pos hname]
  unfold get_entity_def at h
  rw [if_neg hname] at h
  cases hdg : dictGet name st.name_to_path with
  | some fp =>
      simp only [hdg] at h
      obtain ⟨hc, hl, hst⟩ := fetchStep_none_cases proj st st.name_to_path fp st' h
      have hdg' : dictGet name st'.name_to_path = some fp := by
        rw [hst]
        exact hdg
      have hc' : dictGet fp st'.cache = none := by
        rw [hst]
        exact hc
      refine ⟨{ st' with name_to_path := st'.name_to_path }, ?_⟩
      unfold get_entity_def
      rw [if_neg hname]
      simp only [hdg']
      exact fetchStep_fail proj st' st'.name_to_path fp hc' hl
  | none =>
      simp only [hdg] at h
      cases hdm : dictGet name (scanAvailable proj st.name_to_path) with
      | some fp =>
          simp only [hdm] at h
          obtain ⟨hc, hl, hst⟩ :=
            fetchStep_none_cases proj st (scanAvailable proj st.name_to_path) fp st' h
          have hdg' : dictGet name st'.name_to_path = some fp := by
            rw [hst]
            exact hdm
          have hc' : dictGet fp st'.cache = none := by
            rw [hst]
            exact hc
          refine ⟨{ st' with name_to_path := st'.name_to_path }, ?_⟩
          unfold get_entity_def
          rw [if_neg hname]
          simp only [hdg']
          exact fetchStep_fail proj st' st'.name_to_path fp hc' hl
      | none =>
          simp only [hdm] at h
          simp only [Prod.mk.injEq] at h
          have hst : st' = { st with name_to_path := scanAvailable proj st.name_to_path } :=
            h.2.symm
          have hdg' : dictGet name st'.name_to_path = none := by
            rw [hst]
            exact hdm
          have hscan2 : dictGet name (scanAvailable proj st'.name_to_path) = none := by
            rw [hst]
            show dictGet name
              (scanAvailable proj (scanAvailable proj st.name_to_path)) = none
            rw [scanAvailable_get_congr proj name
              (scanAvailable proj st.name_to_path) st.name_to_path
              (by rw [hdm, hdg])]
            exact hdm
          refine ⟨{ st' with name_to_path := scanAvailable proj st'.name_to_path }, ?_⟩
          unfold get_entity_def
          rw [if_neg hname]
          simp only [hdg', hscan2]

/-- Re-running the geometry step against the same bounds changes nothing
and reports no change. -/
theorem applyRefGeometry_idem (bp : BodyPart) (mnx mny w h : ℚ) :
    applyRefGeometry (applyRefGeometry bp mnx mny w h).1 mnx mny w h
      = ((applyRefGeometry bp mnx mny w h).1, false) := by
  have hsx := applyRefGeometry_size_x bp mnx mny w h
  have hsy := applyRefGeometry_size_y bp mnx mny w h
  have hpx := applyRefGeometry_piv_x bp mnx mny w h
  have hpy := applyRefGeometry_piv_y bp mnx mny w h
  set bp1 := (applyRefGeometry bp mnx mny w h).1 with hbp1
  have hc1 : ¬(bp1.size.x ≠ w ∨ bp1.size.y ≠ h) := by
    push_neg
    exact ⟨hsx, hsy⟩
  have hc2 : ¬(bp1.pivot_offset.x ≠ -(mnx + w / 2)
      ∨ bp1.pivot_offset.y ≠ -(mny + h / 2)) := by
    push_neg
    exact ⟨hpx, hpy⟩
  have hnpx : bp1.position.x + bp1.size.x / 2 + bp1.pivot_offset.x
      - w / 2 - (-(mnx + w / 2)) = bp1.position.x := by
    rw [hsx, hpx]
    ring
  have hnpy : bp1.position.y + bp1.size.y / 2 + bp1.pivot_offset.y
      - h / 2 - (-(mny + h / 2)) = bp1.position.y := by
    rw [hsy, hpy]
    ring
  have hc3 : ¬(bp1.position.x ≠ bp1.position.x + bp1.size.x / 2 + bp1.pivot_offset.x
        - w / 2 - (-(mnx + w / 2))
      ∨ bp1.position.y ≠ bp1.position.y + bp1.size.y / 2 + bp1.pivot_offset.y
        - h / 2 - (-(mny + h / 2))) := by
    push_neg
    exact ⟨hnpx.symm, hnpy.symm⟩
  show ({ bp1 with
      size := if bp1.size.x ≠ w ∨ bp1.size.y ≠ h then ⟨w, h⟩ else bp1.size,
      pivot_offset :=
        if bp1.pivot_offset.x ≠ -(mnx + w / 2) ∨ bp1.pivot_offset.y ≠ -(mny + h / 2)
        then ⟨-(mnx + w / 2), -(mny + h / 2)⟩ else bp1.pivot_offset,
      position :=
        if bp1.position.x ≠ bp1.position.x + bp1.size.x / 2 + bp1.pivot_offset.x
            - w / 2 - (-(mnx + w / 2))
          ∨ bp1.position.y ≠ bp1.position.y + bp1.size.y / 2 + bp1.pivot_offset.y
            - h / 2 - (-(mny + h / 2))
        then ⟨bp1.position.x + bp1.size.x / 2 + bp1.pivot_offset.x
                - w / 2 - (-(mnx + w / 2)),
              bp1.position.y + bp1.size.y / 2 + bp1.pivot_offset.y
                - h / 2 - (-(mny + h / 2))⟩
        else bp1.position },
    decide (bp1.size.x ≠ w ∨ bp1.size.y ≠ h)
      || decide (bp1.pivot_offset.x ≠ -(mnx + w / 2)
          ∨ bp1.pivot_offset.y ≠ -(mny + h / 2))
      || decide (bp1.position.x ≠ bp1.position.x + bp1.size.x / 2 + bp1.pivot_offset.x
            - w / 2 - (-(mnx + w / 2))
          ∨ bp1.position.y ≠ bp1.position.y + bp1.size.y / 2 + bp1.pivot_offset.y
            - h / 2 - (-(mny + h / 2)))) = (bp1, false)
  rw [if_neg hc1, if_neg hc2, if_neg hc3,
      decide_eq_false hc1, decide_eq_false hc2, decide_eq_false hc3]
  rfl

/-- C1 — World-pivot preservation: for a Reference body part whose target
loads and has four-component bounds, `_update_ref_geometry` succeeds, sets
`pivot_offset` to `-(min + extent/2)` on both axes, and the reconciled
`position + size/2 + pivot_offset` equals its value computed from the
fields before any write. -/
theorem reconcile_preserves_world_pivot
    (proj : Project) (st : MgrState) (bp : BodyPart) (ref : Entity) (i : Nat)
    (st' : MgrState) (mnx mny w h : ℚ)
    (hkind : bp.part_type = .ENTITY_REF)
    (href : bp.entity_ref ≠ "")
    (hload : get_entity_def proj st bp.entity_ref = (some (ref, i), st'))
    (hbounds : calculate_entity_bounds ref = .quad mnx mny w h) :
    ∃ bp' c, update_ref_geometry proj st bp = .ok (bp', c, st')
      ∧ bp'.pivot_offset.x = -(mnx + w / 2)
      ∧ bp'.pivot_offset.y = -(mny + h / 2)
      ∧ bp'.position.x + bp'.size.x / 2 + bp'.pivot_offset.x
          = bp.position.x + bp.size.x / 2 + bp.pivot_offset.x
      ∧ bp'.position.y + bp'.size.y / 2 + bp'.pivot_offset.y
          = bp.position.y + bp.size.y / 2 + bp.pivot_offset.y := by
  refine ⟨(applyRefGeometry bp mnx mny w h).1, (applyRefGeometry bp mnx mny w h).2,
    ?_, applyRefGeometry_piv_x bp mnx mny w h, applyRefGeometry_piv_y bp mnx mny w h,
    ?_, ?_⟩
  · unfold update_ref_geometry
    rw [if_neg href]
    simp only [hload, hbounds]
  · rw [applyRefGeometry_pos_x, applyRefGeometry_size_x, applyRefGeometry_piv_x]
    ring
  · rw [applyRefGeometry_pos_y, applyRefGeometry_size_y, applyRefGeometry_piv_y]
    ring

/-- Concrete target definition with bounds `(0, 0, 80, 80)`. -/
def entT : Entity :=
  { name := "T", body_parts := [{ name := "big", size := ⟨80, 80⟩ }] }

/-- Project for the reconciler witnesses (the target is already cached). -/
def projT : Project := { dirs := [], loader := fun _ => .error () }

/-- Manager state with `entT` cached under its resolved path. -/
def stT : MgrState :=
  { name_to_path := [("T", "/T.entdef")],
    cache := [("/T.entdef", (entT, 0))],
    counter := 1 }

/-- The spec's own example body part: position (10,10), size (40,40),
pivot_offset (0,0), referencing `T`. -/
def bpT : BodyPart :=
  { position := ⟨10, 10⟩, size := ⟨40, 40⟩, pivot_offset := ⟨0, 0⟩,
    part_type := .ENTITY_REF, entity_ref := "T" }

/-- Closed witness for C1 at the spec's example geometry. -/
theorem reconcile_preserves_world_pivot_witness :
    (bpT.part_type = BodyPartType.ENTITY_REF)
    ∧ (bpT.entity_ref ≠ "")
    ∧ (get_entity_def projT stT bpT.entity_ref = (some (entT, 0), stT))
    ∧ (calculate_entity_bounds entT = .quad 0 0 80 80)
    ∧ (∃ bp' c, update_ref_geometry projT stT bpT = .ok (bp', c, stT)
        ∧ bp'.pivot_offset.x = -(0 + 80 / 2)
        ∧ bp'.pivot_offset.y = -(0 + 80 / 2)
        ∧ bp'.position.x + bp'.size.x / 2 + bp'.pivot_offset.x
            = bpT.position.x + bpT.size.x / 2 + bpT.pivot_offset.x
        ∧ bp'.position.y + bp'.size.y / 2 + bp'.pivot_offset.y
            = bpT.position.y + bpT.size.y / 2 + bpT.pivot_offset.y) :=
  ⟨by decide, by decide, by decide,
   by norm_num [calculate_entity_bounds, extendAcc, bpRect, pymin, pymax, entT],
   reconcile_preserves_world_pivot projT stT bpT entT 0 stT 0 0 80 80
     (by decide) (by decide) (by decide)
     (by norm_num [calculate_entity_bounds, extendAcc, bpRect, pymin, pymax, entT])⟩

/-- C2 — Idempotence of reconciliation: if `_update_ref_geometry` returns
normally, a second run on its result (with no intervening change to the
project) leaves every field identical and reports `changed = false`,
writing nothing. -/
theorem reconcile_idempotent (proj : Project) (st : MgrState) (bp bp1 : BodyPart)
    (c1 : Bool) (st1 : MgrState)
    (hrun : update_ref_geometry proj st bp = .ok (bp1, c1, st1)) :
    ∃ st2, update_ref_geometry proj st1 bp1 = .ok (bp1, false, st2) := by
  by_cases he : bp.entity_ref = ""
  · unfold update_ref_geometry at hrun
    rw [if_pos he] at hrun
    simp only [Except.ok.injEq, Prod.mk.injEq] at hrun
    obtain ⟨hbp, hc, hst⟩ := hrun
    refine ⟨st1, ?_⟩
    unfold update_ref_geometry
    rw [if_pos (by rw [← hbp]; exact he)]
  · unfold update_ref_geometry at hrun
    rw [if_neg he] at hrun
    cases hg : get_entity_def proj st bp.entity_ref with
    | mk o stg =>
        rw [hg] at hrun
        cases o with
        | none =>
            simp only [Except.ok.injEq, Prod.mk.injEq] at hrun
            obtain ⟨hbp, hc, hst⟩ := hrun
            obtain ⟨st2, hg2⟩ := get_none_stable proj st bp.entity_ref stg hg
            refine ⟨st2, ?_⟩
            unfold update_ref_geometry
            rw [if_neg (by rw [← hbp]; exact he), ← hbp, ← hst]
            simp only [hg2]
        | some obj =>
            obtain ⟨ref, i⟩ := obj
            dsimp only at hrun
            cases hb : calculate_entity_bounds ref with
            | pair a b =>
                rw [hb] at hrun
                simp at hrun
            | quad mnx mny w h =>
                rw [hb] at hrun
                simp only [Except.ok.injEq, Prod.mk.injEq] at hrun
                obtain ⟨hbp, hc, hst⟩ := hrun
                have hg2 : get_entity_def proj st1 bp.entity_ref
                    = (some (ref, i), stg) := by
                  rw [← hst]
                  exact get_entity_def_stable proj st bp.entity_ref ref i stg hg
                have hidem := applyRefGeometry_idem bp mnx mny w h
                refine ⟨stg, ?_⟩
                unfold update_ref_geometry
                rw [if_neg (by rw [← hbp, applyRefGeometry_ref]; exact he),
                    ← hbp, applyRefGeometry_ref]
                simp only [hg2, hb, hidem]

/-- Witness body part for C2: reconciling `bpT` against `entT` changes it
(spec example), re-reconciling the result reports no change. -/
theorem reconcile_idempotent_witness :
    (∃ bp1 c1, update_ref_geometry projT stT bpT = .ok (bp1, c1, stT)
      ∧ (∃ st2, update_ref_geometry projT stT bp1 = .ok (bp1, false, st2))) := by
  obtain ⟨bp1, c1, hrun, _⟩ :=
    reconcile_preserves_world_pivot projT stT bpT entT 0 stT 0 0 80 80
      (by decide) (by decide) (by decide)
      (by norm_num [calculate_entity_bounds, extendAcc, bpRect, pymin, pymax, entT])
  exact ⟨bp1, c1, hrun, reconcile_idempotent projT stT bpT bp1 c1 stT hrun⟩

/-- C8 — Broken-reference atomicity: when the reference is empty or cannot
be resolved/loaded, `_update_ref_geometry` returns `Except.ok` (no
exception) with `changed = false` and the body part bit-for-bit unchanged. -/
theorem broken_reference_atomic (proj : Project) (st : MgrState) (bp : BodyPart)
    (hbroken : bp.entity_ref = "" ∨ (get_entity_def proj st bp.entity_ref).1 = none) :
    ∃ st', update_ref_geometry proj st bp = .ok (bp, false, st') := by
  by_cases he : bp.entity_ref = ""
  · refine ⟨st, ?_⟩
    unfold update_ref_geometry
    rw [if_pos he]
  · have hnone : (get_entity_def proj st bp.entity_ref).1 = none := by
      rcases hbroken with hb | hb
      · exact absurd hb he
      · exact hb
    cases hg : get_entity_def proj st bp.entity_ref with
    | mk o stg =>
        rw [hg] at hnone
        dsimp only at hnone
        subst hnone
        refine ⟨stg, ?_⟩
        unfold update_ref_geometry
        rw [if_neg he, hg]

/-- A Reference body part whose target name resolves nowhere. -/
def bpGhost : BodyPart :=
  { position := ⟨1, 2⟩, size := ⟨3, 4⟩, pivot_offset := ⟨5, 6⟩,
    part_type := .ENTITY_REF, entity_ref := "Ghost" }

/-- Closed witness for C8: a Reference part pointing at an unresolvable
name ("Ghost" is in no index and no directory). -/
theorem broken_reference_atomic_witness :
    (bpGhost.entity_ref = ""
      ∨ (get_entity_def projT stT bpGhost.entity_ref).1 = none)
    ∧ (∃ st', update_ref_geometry projT stT bpGhost = .ok (bpGhost, false, st')) :=
  ⟨Or.inr (by decide),
   broken_reference_atomic projT stT bpGhost (Or.inr (by decide))⟩

/-! ## Dependency resolver and reference-target filter
(entity_manager.py `get_all_dependencies`, lines 122-148;
bodyparts_panel.py `_update_properties`, lines 486-512)

`get_all_dependencies` calls `get_entity_def`; with a fixed project the
returned definition content is a function of the name alone
(`get_entity_def_stable`), so the resolver is embedded over a pure
`lookup`.  The Python recursion terminates because `visited` grows inside
the finite universe of names; the embedding makes that explicit with a
fuel argument that callers choose large enough. -/

/-- The body-part loop of `get_all_dependencies`: thread `deps` and the
in-place mutated `visited` through the parts, descending into each not yet
visited reference (sets are embedded as duplicate-free-by-use lists, `add`
as append). -/
def depsFold (gad : String → List String → List String × List String) :
    List BodyPart → List String → List String → List String × List String
  | [], deps, visited => (deps, visited)
  | bp :: bps, deps, visited =>
      if bp.part_type = .ENTITY_REF ∧ bp.entity_ref ≠ "" ∧ bp.entity_ref ∉ visited then
        let res := gad bp.entity_ref (visited ++ [bp.entity_ref])
        depsFold gad bps (deps ++ [bp.entity_ref] ++ res.1) res.2
      else depsFold gad bps deps visited

/-- `get_all_dependencies(entity_name, visited)`: the transitive set of
names reachable through Reference body parts; names already in `visited`
are not re-expanded; an unloadable definition contributes nothing. -/
def get_all_dependencies (lookup : String → Option Entity) :
    Nat → String → List String → List String × List String
  | 0, _, visited => ([], visited)
  | fuel+1, entity_name, visited =>
      match lookup entity_name with
      | none => ([], visited)
      | some e => depsFold (get_all_dependencies lookup fuel) e.body_parts [] visited

/-- Lexicographic comparison by code point (Python's `<` on strings). -/
def strLtAux : List Char → List Char → Bool
  | [], [] => false
  | [], _ :: _ => true
  | _ :: _, [] => false
  | c :: cs, d :: ds =>
      if c.toNat < d.toNat then true
      else if d.toNat < c.toNat then false
      else strLtAux cs ds

/-- Total order used by Python's `sorted` on strings; only membership of
the sorted list matters to the claims. -/
def strLe (a b : String) : Bool := a = b || strLtAux a.data b.data

def sortedInsert (s : String) : List String → List String
  | [] => [s]
  | t :: ts => if strLe s t then s :: t :: ts else t :: sortedInsert s ts

def sortStrings (l : List String) : List String := l.foldr sortedInsert []

/-- `get_available_entity_names()`: the index keys without the
`.entdef`-suffixed duplicates, sorted. -/
def get_available_entity_names (st : MgrState) : List String :=
  sortStrings ((st.name_to_path.map Prod.fst).filter
    (fun k => !(pyEndsWith k ".entdef")))

/-- The reference-target filter of `_update_properties`: drop the current
definition itself, then drop every candidate whose transitive dependency
set contains the current name. -/
def available_ref_targets (lookup : String → Option Entity) (fuel : Nat)
    (st : MgrState) (current : String) : List String :=
  let available := get_available_entity_names st
  let available := if current ∈ available then available.erase current else available
  let to_remove := available.filter
    (fun c => decide (current ∈ (get_all_dependencies lookup fuel c []).1))
  to_remove.foldl (fun av r => av.erase r) available

theorem mem_foldl_erase (c : String) :
    ∀ (rs l : List String), l.Nodup →
      c ∈ rs.foldl (fun av r => av.erase r) l →
      c ∈ l ∧ c ∉ rs := by
  intro rs
  induction rs with
  | nil =>
      intro l hnd hc
      exact ⟨hc, by simp⟩
  | cons r rs ih =>
      intro l hnd hc
      simp only [List.foldl_cons] at hc
      obtain ⟨h1, h2⟩ := ih (l.erase r) (hnd.erase r) hc
      have hcl : c ∈ l := List.mem_of_mem_erase h1
      have hcr : c ≠ r := ((List.Nodup.mem_erase_iff hnd).mp h1).1
      refine ⟨hcl, ?_⟩
      intro hmem
      rcases List.mem_cons.mp hmem with hh | hh
      · exact hcr hh
      · exact h2 hh

/-- Entity `A`: references nothing. -/
def entA : Entity := { name := "A" }

/-- Entity `B`: one Reference body part pointing at `A`. -/
def entB : Entity :=
  { name := "B", body_parts := [{ part_type := .ENTITY_REF, entity_ref := "A" }] }

/-- Pure lookup view of a manager knowing exactly `A` and `B`. -/
def lookupAB : String → Option Entity :=
  fun n => if n = "A" then some entA else if n = "B" then some entB else none

/-- Index state listing `A` and `B` under bare name and filename. -/
def stAB : MgrState :=
  { name_to_path := [("A", "/A.entdef"), ("A.entdef", "/A.entdef"),
                     ("B", "/B.entdef"), ("B.entdef", "/B.entdef")],
    cache := [], counter := 0 }

/-- C4 — Cycle exclusion: every surviving candidate differs from the
current definition and does not transitively depend on it; concretely,
with `B` referencing `A`, `B` is excluded from `A`'s candidate list while
`A` remains assignable inside `B`. -/
theorem cycle_exclusion :
    (∀ (lookup : String → Option Entity) (fuel : Nat) (st : MgrState)
        (current c : String),
      (get_available_entity_names st).Nodup →
      c ∈ available_ref_targets lookup fuel st current →
      c ≠ current ∧ current ∉ (get_all_dependencies lookup fuel c []).1)
    ∧ ("B" ∉ available_ref_targets lookupAB 10 stAB "A")
    ∧ ("A" ∈ available_ref_targets lookupAB 10 stAB "B") := by
  refine ⟨?_, by decide, by decide⟩
  intro lookup fuel st current c hnd hc
  unfold available_ref_targets at hc
  set names := get_available_entity_names st with hnames
  set avail := if current ∈ names then names.erase current else names with havail
  have hand : avail.Nodup := by
    rw [havail]
    by_cases h : current ∈ names
    · rw [if_pos h]
      exact hnd.erase current
    · rw [if_neg h]
      exact hnd
  have hcur : current ∉ avail := by
    rw [havail]
    by_cases h : current ∈ names
    · rw [if_pos h]
      intro hmem
      exact ((List.Nodup.mem_erase_iff hnd).mp hmem).1 rfl
    · rw [if_neg h]
      exact h
  obtain ⟨h1, h2⟩ := mem_foldl_erase c _ avail hand hc
  constructor
  · intro hq
    rw [hq] at h1
    exact hcur h1
  · intro hdep
    exact h2 (List.mem_filter.mpr ⟨h1, by simpa using hdep⟩)

/-- Closed witness for C4 applying the universal part at the concrete
two-definition manager. -/
theorem cycle_exclusion_witness :
    ((get_available_entity_names stAB).Nodup)
    ∧ ("A" ∈ available_ref_targets lookupAB 10 stAB "B")
    ∧ ("A" ≠ "B" ∧ "B" ∉ (get_all_dependencies lookupAB 10 "A" []).1) :=
  ⟨by decide, by decide,
   cycle_exclusion.1 lookupAB 10 stAB "B" "A" (by decide) (by decide)⟩

/-! ## Depth-guarded rendering traversal
(src/tools/entity_editor/ui/viewport/viewport_renderer.py,
`_draw_body_parts` lines 53-98 and `_draw_entity_ref` lines 100-146)

`_draw_body_parts(painter, entity, depth)` returns as soon as
`depth > 10`; an `ENTITY_REF` part calls `_draw_entity_ref` with
`depth + 1`, which recurses into `_draw_body_parts` at that depth.  The
painter calls are abstracted into a trace of draw events carrying the
depth at which the drawn body part lives; `_draw_entity_ref` is inlined.
The recursion is made structural on a `gas` counter kept equal to
`11 - depth` by the entry point; `gas` reaches 0 only when `depth > 10`
also holds, so the guard semantics are unchanged. -/

/-- Trace of the painter calls relevant to the traversal. -/
inductive DrawEvent where
  | texture (name : String) (depth : Nat)
  | placeholder (name : String) (depth : Nat)
  | refEnter (target : String) (depth : Nat)
deriving DecidableEq, Repr

/-- The nesting depth at which an event was emitted. -/
def evDepth : DrawEvent → Nat
  | .texture _ d => d
  | .placeholder _ d => d
  | .refEnter _ d => d

/-- Renderer collaborators: the manager lookup and the selection state
read by the selection-on-top reordering. -/
structure RenderCtx where
  lookup : String → Option Entity
  selection_on_top : Bool
  has_selection : Bool
  isSelected : BodyPart → Bool

/-- Stable insertion sort by `z_order` (`body_parts.sort(key=...)`). -/
def zInsert (bp : BodyPart) : List BodyPart → List BodyPart
  | [] => [bp]
  | t :: ts => if bp.z_order ≤ t.z_order then bp :: t :: ts else t :: zInsert bp ts

def sortByZ (l : List BodyPart) : List BodyPart := l.foldr zInsert []

/-- `_draw_body_parts` with `_draw_entity_ref` inlined: sort by z-order,
reorder selected parts on top at depth 0, then draw each visible part,
recursing one level deeper through each resolvable reference. -/
def drawBodyParts (ctx : RenderCtx) : Nat → Nat → Entity → List DrawEvent
  | 0, _, _ => []
  | gas+1, depth, e =>
      if depth > 10 then []
      else
        let body_parts := sortByZ e.body_parts
        let draw_list :=
          if depth = 0 ∧ ctx.selection_on_top = true ∧ ctx.has_selection = true then
            body_parts.filter (fun bp => !ctx.isSelected bp)
              ++ body_parts.filter (fun bp => ctx.isSelected bp)
          else body_parts
        draw_list.flatMap (fun bp =>
          if !bp.visible then []
          else
            match bp.part_type with
            | .ENTITY_REF =>
                if bp.entity_ref = "" then [.placeholder bp.name depth]
                else
                  match ctx.lookup bp.entity_ref with
                  | none => [.placeholder bp.name depth]
                  | some ref =>
                      .refEnter bp.entity_ref depth
                        :: drawBodyParts ctx gas (depth + 1) ref
            | .SIMPLE => [.texture bp.name depth])

/-- The renderer's entry point (`render` calls `_draw_body_parts` at
depth 0). -/
def render_body_parts (ctx : RenderCtx) (e : Entity) : List DrawEvent :=
  drawBodyParts ctx 11 0 e

theorem drawBodyParts_depth_le (ctx : RenderCtx) :
    ∀ (gas depth : Nat) (e : Entity) (ev : DrawEvent),
      ev ∈ drawBodyParts ctx gas depth e → evDepth ev ≤ 10 := by
  intro gas
  induction gas with
  | zero =>
      intro depth e ev hev
      simp [drawBodyParts] at hev
  | succ gas ih =>
      intro depth e ev hev
      by_cases hd : depth > 10
      · unfold drawBodyParts at hev
        rw [if_pos hd] at hev
        simp at hev
      · have hdle : depth ≤ 10 := Nat.not_lt.mp hd
        unfold drawBodyParts at hev
        rw [if_neg hd] at hev
        obtain ⟨bp, hbp, hev2⟩ := List.mem_flatMap.mp hev
        cases hv : bp.visible with
        | false =>
            rw [hv] at hev2
            simp at hev2
        | true =>
            rw [hv] at hev2
            simp only [Bool.not_true, Bool.false_eq_true, if_false] at hev2
            cases hpt : bp.part_type with
            | SIMPLE =>
                rw [hpt] at hev2
                simp only [List.mem_singleton] at hev2
                rw [hev2]
                exact hdle
            | ENTITY_REF =>
                rw [hpt] at hev2
                by_cases hre : bp.entity_ref = ""
                · rw [if_pos hre] at hev2
                  simp only [List.mem_singleton] at hev2
                  rw [hev2]
                  exact hdle
                · rw [if_neg hre] at hev2
                  cases hlk : ctx.lookup bp.entity_ref with
                  | none =>
                      rw [hlk] at hev2
                      simp only [List.mem_singleton] at hev2
                      rw [hev2]
                      exact hdle
                  | some ref =>
                      rw [hlk] at hev2
                      rcases List.mem_cons.mp hev2 with hh | hh
                      · rw [hh]
                        exact hdle
                      · exact ih (depth + 1) ref ev hh

/-- C9 — Depth guard: `_draw_body_parts` draws nothing once the depth
exceeds 10, and every event of a full render from depth 0 lives at depth
at most 10 — in particular the traversal is total on any entity graph,
cyclic ones included, since `drawBodyParts` is defined for every input. -/
theorem render_depth_guard :
    (∀ (ctx : RenderCtx) (gas depth : Nat) (e : Entity), depth > 10 →
        drawBodyParts ctx gas depth e = [])
    ∧ (∀ (ctx : RenderCtx) (e : Entity) (ev : DrawEvent),
        ev ∈ render_body_parts ctx e → evDepth ev ≤ 10) := by
  constructor
  · intro ctx gas depth e hd
    cases gas with
    | zero => rfl
    | succ gas =>
        unfold drawBodyParts
        rw [if_pos hd]
  · intro ctx e ev hev
    exact drawBodyParts_depth_le ctx 11 0 e ev hev

/-- A self-referencing definition: the cycle that the Dependency Resolver
would normally prevent. -/
def entC : Entity :=
  { name := "C", body_parts := [{ part_type := .ENTITY_REF, entity_ref := "C" }] }

/-- Render context resolving `C` to the cyclic `entC`. -/
def ctxC : RenderCtx :=
  { lookup := fun n => if n = "C" then some entC else none,
    selection_on_top := false, has_selection := false,
    isSelected := fun _ => false }

/-- Closed witness for C9 on the cyclic entity graph. -/
theorem render_depth_guard_witness :
    ((11:Nat) > 10 ∧ drawBodyParts ctxC 11 11 entC = [])
    ∧ (DrawEvent.refEnter "C" 0 ∈ render_body_parts ctxC entC
       ∧ evDepth (DrawEvent.refEnter "C" 0) ≤ 10) :=
  ⟨⟨by decide, render_depth_guard.1 ctxC 11 11 entC (by decide)⟩,
   ⟨by decide, render_depth_guard.2 ctxC entC (DrawEvent.refEnter "C" 0) (by decide)⟩⟩

end EntityEditor
